import Mathlib

/-!
# A stack-based finite state machine, verified

Shallow embedding of the stack-based FSM engine of
`westworld-bevy-ecs/src/fsm.rs`: the `StateStack` (a `Vec<S>` with the top
at the end), the `Handler` trait (five callbacks, each reading the state
value and mutating the external context `D`), the `StateTransition` request
type, and the `StateMachine` engine (`is_running`, `update`, `transition`,
`switch`, `push`, `pop`, `stop`).

Rust's in-place mutation of the stack and of the external context is made
explicit: each engine operation returns the new stack, the new context, and
the list of handler invocations it performed, in order.  An `Event` is
recorded for every callback the engine fires (`on_start`, `on_stop`,
`on_pause`, `on_resume`) and for every call of the handler's `update`
method, so the callback trace of a run is a first-class value.
-/

namespace Fsm

/-- `StateTransition<S>` from fsm.rs: a transition from one state to the
other, returned by a state's `update`. -/
inductive StateTransition (S : Type) where
  /-- Stay in the current state. -/
  | None : StateTransition S
  /-- End the current state and go to the previous state on the stack, if any. -/
  | Pop : StateTransition S
  /-- Push a new state on the stack. -/
  | Push : S → StateTransition S
  /-- Pop the current state on the stack and insert this one. -/
  | Switch : S → StateTransition S
  /-- Pop all states and exit the state machine. -/
  | Quit : StateTransition S
deriving DecidableEq, Repr

/-- One handler invocation performed by the engine.  `updated s` records a
call of `Handler::update` on top state `s`; the other four record the
lifecycle callbacks. -/
inductive Event (S : Type) where
  | start : S → Event S
  | stop : S → Event S
  | pause : S → Event S
  | resume : S → Event S
  | updated : S → Event S
deriving DecidableEq, Repr

/-- The `Handler<S, D>` trait of fsm.rs.  Each Rust method
`fn f(&self, state: &S, state_data: &mut D)` becomes a pure function
`S → D → D` returning the mutated context; `update` additionally returns
the requested `StateTransition`. -/
structure Handler (S D : Type) where
  on_start : S → D → D
  on_stop : S → D → D
  on_pause : S → D → D
  on_resume : S → D → D
  update : S → D → StateTransition S × D

/-- `StateStack<S>` of fsm.rs: a wrapper around `Vec<S>`.  The vector is
modelled as a `List S` in the same order, so the top of the stack is the
LAST element of the list. -/
structure StateStack (S : Type) where
  state_stack : List S
deriving DecidableEq, Repr

namespace StateStack

/-- `StateStack::new`: the empty stack. -/
def new {S : Type} : StateStack S := ⟨[]⟩

/-- `StateStack::new_initial_state`: a stack holding exactly the seed state.
It takes no handler and no context, so it can invoke no callback. -/
def new_initial_state {S : Type} (initial_state : S) : StateStack S :=
  ⟨[initial_state]⟩

/-- `StateStack::is_empty`. -/
def is_empty {S : Type} (stack : StateStack S) : Bool :=
  stack.state_stack.isEmpty

/-- `StateStack::last` (and `last_mut`, which the engine only reads
through): the top element, if any. -/
def last {S : Type} (stack : StateStack S) : Option S :=
  stack.state_stack.getLast?

/-- `StateStack::pop` (`Vec::pop`): remove and return the last element, or
return `none` leaving the stack unchanged when it is empty. -/
def pop {S : Type} (stack : StateStack S) : Option S × StateStack S :=
  match stack.state_stack.getLast? with
  | some s => (some s, ⟨stack.state_stack.dropLast⟩)
  | none => (none, stack)

/-- `StateStack::push` (`Vec::push`): append as the new top. -/
def push {S : Type} (stack : StateStack S) (s : S) : StateStack S :=
  ⟨stack.state_stack ++ [s]⟩

end StateStack

namespace StateMachine

variable {S D : Type}

/-- `StateMachine::is_running`: the machine still has states in its stack. -/
def is_running (stack : StateStack S) : Bool :=
  !stack.is_empty

/-- `StateMachine::switch`: pop the current top if present and fire its
`on_stop`; then fire `on_start` on the new state and push it. -/
def switch (h : Handler S D) (state : S) (stack : StateStack S) (d : D) :
    StateStack S × D × List (Event S) :=
  match stack.pop with
  | (some old, stack1) =>
      let d1 := h.on_stop old d
      let d2 := h.on_start state d1
      (stack1.push state, d2, [Event.stop old, Event.start state])
  | (none, stack1) =>
      let d2 := h.on_start state d
      (stack1.push state, d2, [Event.start state])

/-- `StateMachine::push`: if a top exists, fire `on_pause` on it (without
removing it); then fire `on_start` on the new state and push it. -/
def push (h : Handler S D) (state : S) (stack : StateStack S) (d : D) :
    StateStack S × D × List (Event S) :=
  match stack.last with
  | some top =>
      let d1 := h.on_pause top d
      let d2 := h.on_start state d1
      (stack.push state, d2, [Event.pause top, Event.start state])
  | none =>
      let d2 := h.on_start state d
      (stack.push state, d2, [Event.start state])

/-- `StateMachine::pop`: pop the top; if one was popped, fire its
`on_stop`; then, if a new top is exposed, fire `on_resume` on it. -/
def pop (h : Handler S D) (stack : StateStack S) (d : D) :
    StateStack S × D × List (Event S) :=
  match stack.pop with
  | (some old, stack1) =>
      let d1 := h.on_stop old d
      match stack1.last with
      | some newtop => (stack1, h.on_resume newtop d1, [Event.stop old, Event.resume newtop])
      | none => (stack1, d1, [Event.stop old])
  | (none, stack1) => (stack1, d, [])

/-- The body of the `while let Some(state) = state_stack.pop()` loop of
`StateMachine::stop`, which repeatedly removes the last element of the
vector and fires `on_stop` on it: popping from the end repeatedly visits
the elements in reverse order, so the loop is recursion over the reversed
list.  Returns the final context and the events fired. -/
def stopLoop (h : Handler S D) (d : D) : List S → D × List (Event S)
  | [] => (d, [])
  | s :: rest =>
      let r := stopLoop h (h.on_stop s d) rest
      (r.1, Event.stop s :: r.2)

/-- `StateMachine::stop`: pop every remaining state, firing `on_stop` on
each, until the stack is empty.  The loop always terminates with the
stack empty. -/
def stop (h : Handler S D) (stack : StateStack S) (d : D) :
    StateStack S × D × List (Event S) :=
  let r := stopLoop h d stack.state_stack.reverse
  (⟨[]⟩, r.1, r.2)

/-- `StateMachine::transition`: dispatch a transition request. -/
def transition (h : Handler S D) (request : StateTransition S)
    (stack : StateStack S) (d : D) : StateStack S × D × List (Event S) :=
  match request with
  | StateTransition.None => (stack, d, [])
  | StateTransition.Pop => pop h stack d
  | StateTransition.Push s => push h s stack d
  | StateTransition.Switch s => switch h s stack d
  | StateTransition.Quit => stop h stack d

/-- `StateMachine::update`: ask the top state (if any) for a transition by
calling the handler's `update`, then apply it; with an empty stack the
transition is `None`. -/
def update (h : Handler S D) (stack : StateStack S) (d : D) :
    StateStack S × D × List (Event S) :=
  match stack.last with
  | some s =>
      let p := h.update s d
      let r := transition h p.1 stack p.2
      (r.1, r.2.1, Event.updated s :: r.2.2)
  | none => transition h StateTransition.None stack d

end StateMachine

/-- Iterate `StateMachine::update` a given number of times, threading the
stack and context and concatenating the event traces, as the external
driver loop does once per tick. -/
def updRun {S D : Type} (h : Handler S D) (stack : StateStack S) (d : D) :
    Nat → StateStack S × D × List (Event S)
  | 0 => (stack, d, [])
  | n + 1 =>
      let r1 := StateMachine.update h stack d
      let r := updRun h r1.1 r1.2.1 n
      (r.1, r.2.1, r1.2.2 ++ r.2.2)

/-- The expected event trace of a run of `update` calls each returning a
`Push`: with current top `p` and remaining pushed values `v :: vs`, the
tick calls the handler's `update` on `p`, fires `on_pause` on `p`
immediately before `on_start` on `v`, and continues with `v` as top. -/
def pushTrace {S : Type} : S → List S → List (Event S)
  | _, [] => []
  | p, v :: vs =>
      Event.updated p :: Event.pause p :: Event.start v :: pushTrace v vs

/-- The run condition of the push-sequence property: starting from `stack`
and context `d`, each successive `update` call finds a top state and the
handler's `update` on it requests exactly `Push vᵢ` for the next `vᵢ`. -/
def returnsPushes {S D : Type} (h : Handler S D) (stack : StateStack S) (d : D) :
    List S → Prop
  | [] => True
  | v :: vs =>
      ∃ top, stack.last = some top ∧
        (h.update top d).1 = StateTransition.Push v ∧
        returnsPushes h (StateMachine.update h stack d).1
          (StateMachine.update h stack d).2.1 vs

/-- The context change performed by one recorded handler invocation. -/
def applyEvent {S D : Type} (h : Handler S D) (d : D) : Event S → D
  | Event.start s => h.on_start s d
  | Event.stop s => h.on_stop s d
  | Event.pause s => h.on_pause s d
  | Event.resume s => h.on_resume s d
  | Event.updated s => (h.update s d).2

/-- Keep only the four lifecycle callbacks of a trace, dropping the
`updated` records of the handler's `update` calls. -/
def cbEvents {S : Type} (evs : List (Event S)) : List (Event S) :=
  evs.filter fun e =>
    match e with
    | Event.updated _ => false
    | _ => true

/-- A concrete handler over `Nat` states and a `Nat` context whose
`update` always requests `Push (s + 1)`; each callback moves the context
so that every invocation is observable. -/
def pushNatHandler : Handler Nat Nat :=
  ⟨fun _ d => d + 1, fun _ d => d + 3, fun _ d => d + 5, fun _ d => d + 7,
   fun s d => (StateTransition.Push (s + 1), d + 11)⟩

/-- A concrete handler whose `update` always requests `Pop`. -/
def popNatHandler : Handler Nat Nat :=
  ⟨fun _ d => d + 1, fun _ d => d + 3, fun _ d => d + 5, fun _ d => d + 7,
   fun _ d => (StateTransition.Pop, d + 11)⟩

/-- A concrete handler whose `update` always requests `Switch (s + 1)`. -/
def switchNatHandler : Handler Nat Nat :=
  ⟨fun _ d => d + 1, fun _ d => d + 3, fun _ d => d + 5, fun _ d => d + 7,
   fun s d => (StateTransition.Switch (s + 1), d + 11)⟩

/-- A concrete handler whose `update` always requests `Quit`. -/
def quitNatHandler : Handler Nat Nat :=
  ⟨fun _ d => d + 1, fun _ d => d + 3, fun _ d => d + 5, fun _ d => d + 7,
   fun _ d => (StateTransition.Quit, d + 11)⟩

/-- The two states of the concrete scenario of the spec. -/
inductive ScnState where
  | A : ScnState
  | B : ScnState
deriving DecidableEq, Repr

/-- The scenario handler: the context counts the `update` calls already
made on `A` and on `B`; `A` requests `Push B` on its first `update` and
`None` thereafter, `B` requests `Pop` on its first `update`.  The four
lifecycle callbacks leave the context unchanged. -/
def scnHandler : Handler ScnState (Nat × Nat) :=
  ⟨fun _ d => d, fun _ d => d, fun _ d => d, fun _ d => d,
   fun s d =>
     match s with
     | ScnState.A =>
         if d.1 = 0 then (StateTransition.Push ScnState.B, (d.1 + 1, d.2))
         else (StateTransition.None, (d.1 + 1, d.2))
     | ScnState.B =>
         if d.2 = 0 then (StateTransition.Pop, (d.1, d.2 + 1))
         else (StateTransition.None, (d.1, d.2 + 1))⟩

/-- A concrete handler all of whose callbacks leave the context unchanged,
while still requesting `Push (s + 1)` transitions. -/
def idNatHandler : Handler Nat Nat :=
  ⟨fun _ d => d, fun _ d => d, fun _ d => d, fun _ d => d,
   fun s d => (StateTransition.Push (s + 1), d)⟩

/-- The concrete scenario of the spec, run for `n` ticks: seed the stack
with `new_initial_state A` and a fresh context, then call `update` `n`
times with `scnHandler`. -/
def scnRun (n : Nat) : StateStack ScnState × (Nat × Nat) × List (Event ScnState) :=
  updRun scnHandler (StateStack.new_initial_state ScnState.A) (0, 0) n

/-! ## Basic lemmas about the stack -/

theorem StateStack.pop_concat {S : Type} (l : List S) (a : S) :
    (⟨l ++ [a]⟩ : StateStack S).pop = (some a, ⟨l⟩) := by
  unfold StateStack.pop
  simp [List.getLast?_concat, List.dropLast_concat]

theorem StateStack.pop_nil {S : Type} :
    (⟨[]⟩ : StateStack S).pop = (none, ⟨[]⟩) := rfl

theorem StateStack.last_concat {S : Type} (l : List S) (a : S) :
    (⟨l ++ [a]⟩ : StateStack S).last = some a :=
  List.getLast?_concat l

theorem StateStack.last_nil {S : Type} :
    (⟨[]⟩ : StateStack S).last = none := rfl

theorem StateStack.eq_nil_or_concat {S : Type} (stack : StateStack S) :
    stack = ⟨[]⟩ ∨ ∃ l a, stack = ⟨l ++ [a]⟩ := by
  obtain ⟨ls⟩ := stack
  rcases List.eq_nil_or_concat ls with h | ⟨l, a, h⟩
  · exact Or.inl (by rw [h])
  · exact Or.inr ⟨l, a, by rw [h]; simp⟩

theorem StateStack.last_eq_some_iff {S : Type} {stack : StateStack S} {a : S} :
    stack.last = some a ↔ ∃ l, stack = ⟨l ++ [a]⟩ := by
  constructor
  · intro hl
    rcases stack.eq_nil_or_concat with rfl | ⟨l, b, rfl⟩
    · simp [StateStack.last_nil] at hl
    · rw [StateStack.last_concat] at hl
      exact ⟨l, by rw [Option.some_inj.mp hl]⟩
  · rintro ⟨l, rfl⟩
    exact StateStack.last_concat l a

/-! ## Unfolding lemmas for the engine operations -/

theorem StateMachine.update_of_last_some {S D : Type} (h : Handler S D)
    {stack : StateStack S} {s : S} (d : D) (hl : stack.last = some s) :
    StateMachine.update h stack d =
      ((StateMachine.transition h (h.update s d).1 stack (h.update s d).2).1,
       (StateMachine.transition h (h.update s d).1 stack (h.update s d).2).2.1,
       Event.updated s ::
         (StateMachine.transition h (h.update s d).1 stack (h.update s d).2).2.2) := by
  unfold StateMachine.update
  rw [hl]

theorem StateMachine.update_of_last_none {S D : Type} (h : Handler S D)
    {stack : StateStack S} (d : D) (hl : stack.last = none) :
    StateMachine.update h stack d = (stack, d, []) := by
  unfold StateMachine.update
  rw [hl]
  rfl

theorem StateMachine.push_of_last_some {S D : Type} (h : Handler S D) (v : S)
    {stack : StateStack S} {top : S} (d : D) (hl : stack.last = some top) :
    StateMachine.push h v stack d =
      (stack.push v, h.on_start v (h.on_pause top d),
       [Event.pause top, Event.start v]) := by
  unfold StateMachine.push
  rw [hl]

theorem StateMachine.push_of_last_none {S D : Type} (h : Handler S D) (v : S)
    {stack : StateStack S} (d : D) (hl : stack.last = none) :
    StateMachine.push h v stack d = (stack.push v, h.on_start v d, [Event.start v]) := by
  unfold StateMachine.push
  rw [hl]

theorem StateMachine.pop_concat_concat {S D : Type} (h : Handler S D)
    (l : List S) (nt a : S) (d : D) :
    StateMachine.pop h ⟨(l ++ [nt]) ++ [a]⟩ d =
      (⟨l ++ [nt]⟩, h.on_resume nt (h.on_stop a d),
       [Event.stop a, Event.resume nt]) := by
  unfold StateMachine.pop
  rw [StateStack.pop_concat]
  simp [StateStack.last_concat]

theorem StateMachine.pop_single {S D : Type} (h : Handler S D) (a : S) (d : D) :
    StateMachine.pop h ⟨[a]⟩ d = (⟨[]⟩, h.on_stop a d, [Event.stop a]) := by
  unfold StateMachine.pop
  rw [show ([a] : List S) = [] ++ [a] by simp, StateStack.pop_concat]
  rfl

theorem StateMachine.pop_on_empty {S D : Type} (h : Handler S D) (d : D) :
    StateMachine.pop h ⟨[]⟩ d = (⟨[]⟩, d, []) := rfl

theorem StateMachine.switch_concat {S D : Type} (h : Handler S D) (v : S)
    (l : List S) (a : S) (d : D) :
    StateMachine.switch h v ⟨l ++ [a]⟩ d =
      (⟨l ++ [v]⟩, h.on_start v (h.on_stop a d),
       [Event.stop a, Event.start v]) := by
  unfold StateMachine.switch
  rw [StateStack.pop_concat]
  rfl

theorem StateMachine.switch_nil {S D : Type} (h : Handler S D) (v : S) (d : D) :
    StateMachine.switch h v ⟨[]⟩ d = (⟨[v]⟩, h.on_start v d, [Event.start v]) := rfl

theorem StateMachine.stopLoop_events {S D : Type} (h : Handler S D) (d : D)
    (l : List S) : (StateMachine.stopLoop h d l).2 = l.map Event.stop := by
  induction l generalizing d with
  | nil => rfl
  | cons s rest ih => simp [StateMachine.stopLoop, ih]

theorem StateMachine.stop_spec {S D : Type} (h : Handler S D)
    (stack : StateStack S) (d : D) :
    (StateMachine.stop h stack d).1 = ⟨[]⟩ ∧
    (StateMachine.stop h stack d).2.2 = stack.state_stack.reverse.map Event.stop := by
  refine ⟨rfl, ?_⟩
  simp [StateMachine.stop, StateMachine.stopLoop_events]

theorem updRun_empty {S D : Type} (h : Handler S D) (d : D) (n : Nat) :
    updRun h (⟨[]⟩ : StateStack S) d n = (⟨[]⟩, d, []) := by
  induction n with
  | zero => rfl
  | succ n ih =>
      simp only [updRun, StateMachine.update_of_last_none h d StateStack.last_nil, ih]
      rfl

/-! ## The claims -/

/-- C5: for every handler and context, `StateMachine::update` on an empty
stack invokes no handler callback (not even the handler's `update`, so the
event trace is empty) and leaves the stack and context unchanged;
`is_running stack` is true iff the stack is non-empty; hence once the
stack is empty, every further sequence of `update` calls leaves it empty,
performs no callback, and keeps `is_running` false. -/
theorem claim_C5_empty_stack_stopped {S D : Type} (h : Handler S D)
    (stack : StateStack S) (d : D) (n : Nat) :
    StateMachine.update h (⟨[]⟩ : StateStack S) d = (⟨[]⟩, d, []) ∧
    (StateMachine.is_running stack = true ↔ stack.state_stack ≠ []) ∧
    updRun h (⟨[]⟩ : StateStack S) d n = (⟨[]⟩, d, []) ∧
    StateMachine.is_running (updRun h (⟨[]⟩ : StateStack S) d n).1 = false := by
  refine ⟨StateMachine.update_of_last_none h d StateStack.last_nil, ?_, updRun_empty h d n, ?_⟩
  · simp [StateMachine.is_running, StateStack.is_empty, List.isEmpty_iff]
  · rw [updRun_empty h d n]
    rfl

/-- C8: `StateMachine::update` is deterministic: with the handler's
callbacks being functions of the state value and the context, two runs of
`update` from equal stacks and equal contexts produce equal resulting
stacks, equal resulting contexts, and the same sequence of handler
invocations; the engine introduces no nondeterminism and no internal
failure mode (it is a total function). -/
theorem claim_C8_update_deterministic {S D : Type} (h : Handler S D)
    (stack1 stack2 : StateStack S) (d1 d2 : D)
    (hs : stack1 = stack2) (hd : d1 = d2) :
    StateMachine.update h stack1 d1 = StateMachine.update h stack2 d2 := by
  rw [hs, hd]

theorem claim_C8_witness :
    StateMachine.update pushNatHandler (StateStack.new_initial_state 0) 0 =
      StateMachine.update pushNatHandler (⟨[0]⟩ : StateStack Nat) 0 :=
  claim_C8_update_deterministic pushNatHandler (StateStack.new_initial_state 0)
    ⟨[0]⟩ 0 0 rfl rfl

/-- C10: constructing a stack with `new` or `new_initial_state s` invokes
no handler callback: both constructors take no handler and no context and
just build the list (`[]`, resp. `[s]`), so in particular no `on_start`
fires for the seed state at construction time; `on_start` for a seed state
fires when it is introduced through the engine, e.g. via the public
`StateMachine::push` on a fresh stack, which fires exactly
`on_start s` (and no `on_pause`). -/
theorem claim_C10_construction_invokes_no_callback {S D : Type}
    (h : Handler S D) (s : S) (d : D) :
    StateStack.new_initial_state s = (⟨[s]⟩ : StateStack S) ∧
    (StateStack.new : StateStack S) = ⟨[]⟩ ∧
    StateMachine.push h s StateStack.new d =
      (⟨[s]⟩, h.on_start s d, [Event.start s]) := by
  refine ⟨rfl, rfl, ?_⟩
  show StateMachine.push h s (⟨[]⟩ : StateStack S) d = _
  rw [StateMachine.push_of_last_none h s d StateStack.last_nil]
  rfl

/-- C7: every `StateStack` operation is total and faultless: `new` is
empty; `new_initial_state s` holds exactly `s`; `pop` on a non-empty
stack removes and returns the top element (decreasing the length by one)
and on an empty stack returns `none` leaving the stack unchanged rather
than faulting; `push s` makes `s` the new top; `last` returns the top or
`none` if empty, with no side effects (it is a pure function of the
stack). -/
theorem claim_C7_statestack_total {S : Type} (stack : StateStack S) (s t : S) :
    (StateStack.new : StateStack S).is_empty = true ∧
    StateStack.new_initial_state s = (⟨[s]⟩ : StateStack S) ∧
    (stack.last = some t →
      stack.pop = (some t, ⟨stack.state_stack.dropLast⟩) ∧
      stack.pop.2.state_stack.length + 1 = stack.state_stack.length) ∧
    (stack.last = none → stack.pop = (none, stack)) ∧
    (stack.push s).last = some s ∧
    stack.last = stack.state_stack.getLast? := by
  refine ⟨rfl, rfl, ?_, ?_, ?_, rfl⟩
  · intro hl
    obtain ⟨l, rfl⟩ := StateStack.last_eq_some_iff.mp hl
    rw [StateStack.pop_concat]
    refine ⟨by rw [List.dropLast_concat], ?_⟩
    simp
  · intro hl
    rcases stack.eq_nil_or_concat with rfl | ⟨l, a, rfl⟩
    · rfl
    · rw [StateStack.last_concat] at hl
      exact absurd hl (by simp)
  · exact StateStack.last_concat stack.state_stack s

theorem claim_C7_witness :
    (⟨[1, 2]⟩ : StateStack Nat).pop = (some 2, ⟨[1]⟩) ∧
    (⟨[]⟩ : StateStack Nat).pop = (none, ⟨[]⟩) := by
  constructor
  · exact ((claim_C7_statestack_total (⟨[1, 2]⟩ : StateStack Nat) 9 2).2.2.1 rfl).1
  · exact (claim_C7_statestack_total (⟨[]⟩ : StateStack Nat) 9 9).2.2.2.1 rfl

/-- C2: applying a `Pop` transition via `StateMachine::update` on a
non-empty stack removes the top (decreasing the length by one) and fires
`on_stop` on the removed state; if the stack had length ≥ 2 it then fires
exactly one `on_resume` on the newly exposed top, in that order; if it had
length 1 the stack becomes empty, no `on_resume` fires, and `is_running`
becomes false. -/
theorem claim_C2_pop {S D : Type} (h : Handler S D) (stack : StateStack S)
    (d : D) (top : S) (hl : stack.last = some top)
    (ht : (h.update top d).1 = StateTransition.Pop) :
    (StateMachine.update h stack d).1.state_stack = stack.state_stack.dropLast ∧
    (StateMachine.update h stack d).1.state_stack.length + 1 =
      stack.state_stack.length ∧
    (2 ≤ stack.state_stack.length →
      ∃ newtop, (StateMachine.update h stack d).1.last = some newtop ∧
        (StateMachine.update h stack d).2.2 =
          [Event.updated top, Event.stop top, Event.resume newtop]) ∧
    (stack.state_stack.length = 1 →
      (StateMachine.update h stack d).1 = ⟨[]⟩ ∧
      (StateMachine.update h stack d).2.2 = [Event.updated top, Event.stop top] ∧
      StateMachine.is_running (StateMachine.update h stack d).1 = false) := by
  obtain ⟨l, rfl⟩ := StateStack.last_eq_some_iff.mp hl
  rw [StateMachine.update_of_last_some h d hl, ht]
  simp only [StateMachine.transition]
  rcases List.eq_nil_or_concat l with rfl | ⟨l2, nt, rfl⟩
  · simp only [List.nil_append]
    rw [StateMachine.pop_single]
    refine ⟨by simp, by simp, ?_, fun _ => ⟨rfl, rfl, rfl⟩⟩
    intro hlen
    simp at hlen
  · simp only [List.concat_eq_append]
    rw [StateMachine.pop_concat_concat]
    refine ⟨by rw [List.dropLast_concat], by simp, ?_, ?_⟩
    · exact fun _ => ⟨nt, StateStack.last_concat l2 nt, rfl⟩
    · intro hlen
      simp at hlen

theorem claim_C2_witness :
    2 ≤ (⟨[5, 6]⟩ : StateStack Nat).state_stack.length ∧
    ∃ newtop,
      (StateMachine.update popNatHandler (⟨[5, 6]⟩ : StateStack Nat) 0).1.last =
        some newtop ∧
      (StateMachine.update popNatHandler (⟨[5, 6]⟩ : StateStack Nat) 0).2.2 =
        [Event.updated 6, Event.stop 6, Event.resume newtop] :=
  ⟨by decide, (claim_C2_pop popNatHandler ⟨[5, 6]⟩ 0 6 rfl rfl).2.2.1 (by decide)⟩

/-- C3: applying a `Switch v` transition via `StateMachine::update` on a
non-empty stack leaves the stack length unchanged with `v` as the new top,
fires `on_stop` on the old top and then `on_start v`, and never fires
`on_pause` or `on_resume`; `switch` on an empty stack fires no `on_stop`,
pushes `v`, fires `on_start v`, and the stack ends with length 1. -/
theorem claim_C3_switch {S D : Type} (h : Handler S D) (stack : StateStack S)
    (d : D) (top v : S) (hl : stack.last = some top)
    (ht : (h.update top d).1 = StateTransition.Switch v) :
    (StateMachine.update h stack d).1.state_stack =
      stack.state_stack.dropLast ++ [v] ∧
    (StateMachine.update h stack d).1.state_stack.length =
      stack.state_stack.length ∧
    (StateMachine.update h stack d).1.last = some v ∧
    (StateMachine.update h stack d).2.2 =
      [Event.updated top, Event.stop top, Event.start v] ∧
    StateMachine.switch h v (⟨[]⟩ : StateStack S) d =
      (⟨[v]⟩, h.on_start v d, [Event.start v]) := by
  obtain ⟨l, rfl⟩ := StateStack.last_eq_some_iff.mp hl
  rw [StateMachine.update_of_last_some h d hl, ht]
  simp only [StateMachine.transition]
  rw [StateMachine.switch_concat]
  refine ⟨by rw [List.dropLast_concat], by simp, StateStack.last_concat l v, rfl,
    StateMachine.switch_nil h v d⟩

theorem claim_C3_witness :
    (StateMachine.update switchNatHandler (⟨[5, 6]⟩ : StateStack Nat) 0).1.state_stack =
      [5, 7] ∧
    (StateMachine.update switchNatHandler (⟨[5, 6]⟩ : StateStack Nat) 0).2.2 =
      [Event.updated 6, Event.stop 6, Event.start 7] :=
  ⟨(claim_C3_switch switchNatHandler ⟨[5, 6]⟩ 0 6 7 rfl rfl).1,
   (claim_C3_switch switchNatHandler ⟨[5, 6]⟩ 0 6 7 rfl rfl).2.2.2.1⟩

/-- C4: `StateMachine::stop` (the `Quit` unwind) on a stack of length n —
any stack, so every n — fires `on_stop` exactly n times, once per state in
order from top to bottom, fires no `on_resume` and no `on_pause`, and
leaves the stack empty; for n = 0 it is a no-op (stack, context and trace
all unchanged); and applying a `Quit` transition via `StateMachine::update`
on a non-empty stack does exactly this unwind after the `update` call on
the top state. -/
theorem claim_C4_quit {S D : Type} (h : Handler S D) (stack : StateStack S)
    (d : D) (top : S) :
    (StateMachine.stop h stack d).1 = ⟨[]⟩ ∧
    (StateMachine.stop h stack d).2.2 =
      stack.state_stack.reverse.map Event.stop ∧
    (StateMachine.stop h stack d).2.2.length = stack.state_stack.length ∧
    (∀ s, Event.resume s ∉ (StateMachine.stop h stack d).2.2 ∧
          Event.pause s ∉ (StateMachine.stop h stack d).2.2) ∧
    StateMachine.stop h (⟨[]⟩ : StateStack S) d = (⟨[]⟩, d, []) ∧
    (stack.last = some top → (h.update top d).1 = StateTransition.Quit →
      (StateMachine.update h stack d).1 = ⟨[]⟩ ∧
      (StateMachine.update h stack d).2.2 =
        Event.updated top :: stack.state_stack.reverse.map Event.stop) := by
  obtain ⟨hs1, hs2⟩ := StateMachine.stop_spec h stack d
  refine ⟨hs1, hs2, by rw [hs2]; simp, ?_, rfl, ?_⟩
  · intro s
    constructor <;> · rw [hs2]; simp [List.mem_map]
  · intro hl ht
    rw [StateMachine.update_of_last_some h d hl, ht]
    simp only [StateMachine.transition]
    exact ⟨(StateMachine.stop_spec h stack (h.update top d).2).1,
      by rw [(StateMachine.stop_spec h stack (h.update top d).2).2]⟩

theorem claim_C4_witness :
    (StateMachine.update quitNatHandler (⟨[1, 2, 3]⟩ : StateStack Nat) 0).1 = ⟨[]⟩ ∧
    (StateMachine.update quitNatHandler (⟨[1, 2, 3]⟩ : StateStack Nat) 0).2.2 =
      [Event.updated 3, Event.stop 3, Event.stop 2, Event.stop 1] ∧
    StateMachine.stop quitNatHandler (⟨[]⟩ : StateStack Nat) 0 = (⟨[]⟩, 0, []) := by
  have h := claim_C4_quit quitNatHandler ⟨[1, 2, 3]⟩ 0 3
  have h6 := h.2.2.2.2.2 rfl rfl
  exact ⟨h6.1, by rw [h6.2]; rfl, h.2.2.2.2.1⟩

theorem pushRun_spec {S D : Type} (h : Handler S D) (vs : List S) :
    ∀ (stack : StateStack S) (d : D) (p0 : S),
      stack.last = some p0 → returnsPushes h stack d vs →
      (updRun h stack d vs.length).1.state_stack = stack.state_stack ++ vs ∧
      (updRun h stack d vs.length).2.2 = pushTrace p0 vs := by
  induction vs with
  | nil =>
      intro stack d p0 _ _
      exact ⟨by simp [updRun], by simp [updRun, pushTrace]⟩
  | cons v vs ih =>
      intro stack d p0 hl hr
      obtain ⟨top, hl2, ht, hrest⟩ := hr
      have htop : top = p0 := Option.some_inj.mp (hl2.symm.trans hl)
      subst htop
      have hupd : StateMachine.update h stack d =
          (stack.push v, h.on_start v (h.on_pause top (h.update top d).2),
           [Event.updated top, Event.pause top, Event.start v]) := by
        rw [StateMachine.update_of_last_some h d hl, ht]
        simp only [StateMachine.transition]
        rw [StateMachine.push_of_last_some h v (h.update top d).2 hl]
      rw [hupd] at hrest
      have hlast2 : (stack.push v).last = some v :=
        StateStack.last_concat stack.state_stack v
      obtain ⟨ih1, ih2⟩ := ih (stack.push v) _ v hlast2 hrest
      simp only [List.length_cons, updRun, hupd]
      constructor
      · rw [ih1]
        show (stack.state_stack ++ [v]) ++ vs = stack.state_stack ++ v :: vs
        simp
      · rw [ih2]
        rfl

/-- C1: applying a `Push v` transition on an empty stack fires no
`on_pause` at all (only `on_start v`); and for every run of `n = vs.length`
`update` calls each returning `Push vᵢ` with no other transitions
interleaved (`returnsPushes`), the final stack is the initial one with the
pushed values appended — so its length is the initial length plus n and its
top is `vₙ` — and the event trace is exactly, per tick: the `update` call on
the previous top, `on_pause` on that previous top, then immediately
`on_start vᵢ`; so `on_pause` fired on each previously-top state exactly
once, in push order, immediately before the corresponding `on_start vᵢ`. -/
theorem claim_C1_push_sequence {S D : Type} (h : Handler S D)
    (stack : StateStack S) (d : D) (v p0 : S) (vs : List S) :
    (stack.last = none →
      StateMachine.push h v stack d =
        (stack.push v, h.on_start v d, [Event.start v])) ∧
    (stack.last = some p0 → returnsPushes h stack d vs →
      (updRun h stack d vs.length).1.state_stack = stack.state_stack ++ vs ∧
      (updRun h stack d vs.length).1.state_stack.length =
        stack.state_stack.length + vs.length ∧
      (vs ≠ [] → (updRun h stack d vs.length).1.last = vs.getLast?) ∧
      (updRun h stack d vs.length).2.2 = pushTrace p0 vs) := by
  constructor
  · intro hl
    exact StateMachine.push_of_last_none h v d hl
  · intro hl hr
    obtain ⟨h1, h2⟩ := pushRun_spec h vs stack d p0 hl hr
    refine ⟨h1, by rw [h1]; simp, ?_, h2⟩
    intro hne
    have hgl : (updRun h stack d vs.length).1.last =
        (stack.state_stack ++ vs).getLast? := by
      unfold StateStack.last
      rw [h1]
    rw [hgl, List.getLast?_append_of_ne_nil _ hne]

theorem claim_C1_witness :
    returnsPushes pushNatHandler (⟨[0]⟩ : StateStack Nat) 0 [1, 2] ∧
    (updRun pushNatHandler (⟨[0]⟩ : StateStack Nat) 0 2).1.state_stack = [0, 1, 2] ∧
    (updRun pushNatHandler (⟨[0]⟩ : StateStack Nat) 0 2).2.2 =
      [Event.updated 0, Event.pause 0, Event.start 1,
       Event.updated 1, Event.pause 1, Event.start 2] := by
  have hscript : returnsPushes pushNatHandler (⟨[0]⟩ : StateStack Nat) 0 [1, 2] := by
    refine ⟨0, rfl, rfl, ⟨1, rfl, rfl, trivial⟩⟩
  have h := (claim_C1_push_sequence pushNatHandler ⟨[0]⟩ 0 99 0 [1, 2]).2 rfl hscript
  exact ⟨hscript, h.1, h.2.2.2⟩

theorem stopLoop_data {S D : Type} (h : Handler S D) (d : D) (l : List S) :
    (StateMachine.stopLoop h d l).1 = (l.map Event.stop).foldl (applyEvent h) d := by
  induction l generalizing d with
  | nil => rfl
  | cons s rest ih => simp [StateMachine.stopLoop, applyEvent, ih]

theorem transition_data_foldl {S D : Type} (h : Handler S D)
    (t : StateTransition S) (stack : StateStack S) (d : D) :
    (StateMachine.transition h t stack d).2.1 =
      (StateMachine.transition h t stack d).2.2.foldl (applyEvent h) d := by
  cases t with
  | None => rfl
  | Pop =>
      rcases stack.eq_nil_or_concat with rfl | ⟨l, a, rfl⟩
      · rfl
      · rcases List.eq_nil_or_concat l with rfl | ⟨l2, nt, rfl⟩
        · simp only [StateMachine.transition, List.nil_append]
          rw [StateMachine.pop_single]
          rfl
        · simp only [StateMachine.transition, List.concat_eq_append]
          rw [StateMachine.pop_concat_concat]
          rfl
  | Push v =>
      cases hl : stack.last with
      | none =>
          simp only [StateMachine.transition]
          rw [StateMachine.push_of_last_none h v d hl]
          rfl
      | some top =>
          simp only [StateMachine.transition]
          rw [StateMachine.push_of_last_some h v d hl]
          rfl
  | Switch v =>
      rcases stack.eq_nil_or_concat with rfl | ⟨l, a, rfl⟩
      · simp only [StateMachine.transition]
        rw [StateMachine.switch_nil]
        rfl
      · simp only [StateMachine.transition]
        rw [StateMachine.switch_concat]
        rfl
  | Quit =>
      simp only [StateMachine.transition, StateMachine.stop]
      rw [StateMachine.stopLoop_events, stopLoop_data]

theorem update_data_foldl {S D : Type} (h : Handler S D)
    (stack : StateStack S) (d : D) :
    (StateMachine.update h stack d).2.1 =
      (StateMachine.update h stack d).2.2.foldl (applyEvent h) d := by
  cases hl : stack.last with
  | none =>
      rw [StateMachine.update_of_last_none h d hl]
      rfl
  | some s =>
      rw [StateMachine.update_of_last_some h d hl]
      show (StateMachine.transition h (h.update s d).1 stack (h.update s d).2).2.1 =
        List.foldl (applyEvent h) d
          (Event.updated s ::
            (StateMachine.transition h (h.update s d).1 stack (h.update s d).2).2.2)
      rw [List.foldl_cons]
      exact transition_data_foldl h (h.update s d).1 stack (h.update s d).2

/-- C9: the engine never reads or writes the external context itself: for
every handler, the context produced by one `update` call is exactly the
left fold of the handler invocations recorded in that call's event trace
over the initial context (each change to the context is made by a handler
callback, composed in invocation order); in particular, for every handler
all of whose callbacks leave the context unchanged, `update` leaves the
context unchanged. -/
theorem claim_C9_context_framing {S D : Type} (h : Handler S D)
    (stack : StateStack S) (d : D) :
    (StateMachine.update h stack d).2.1 =
      (StateMachine.update h stack d).2.2.foldl (applyEvent h) d ∧
    ((∀ s x, h.on_start s x = x) → (∀ s x, h.on_stop s x = x) →
     (∀ s x, h.on_pause s x = x) → (∀ s x, h.on_resume s x = x) →
     (∀ s x, (h.update s x).2 = x) →
      (StateMachine.update h stack d).2.1 = d) := by
  have h2 := update_data_foldl h stack d
  refine ⟨h2, ?_⟩
  intro hstart hstop hpause hresume hupd
  rw [h2]
  have hid : ∀ (evs : List (Event S)) (x : D), evs.foldl (applyEvent h) x = x := by
    intro evs
    induction evs with
    | nil => intro x; rfl
    | cons e evs ih =>
        intro x
        rw [List.foldl_cons]
        have he : applyEvent h x e = x := by
          cases e <;> simp [applyEvent, hstart, hstop, hpause, hresume, hupd]
        rw [he]
        exact ih x
  exact hid _ d

theorem claim_C9_witness :
    (StateMachine.update pushNatHandler (⟨[4]⟩ : StateStack Nat) 42).2.1 =
      (StateMachine.update pushNatHandler (⟨[4]⟩ : StateStack Nat) 42).2.2.foldl
        (applyEvent pushNatHandler) 42 ∧
    (StateMachine.update idNatHandler (⟨[4]⟩ : StateStack Nat) 42).2.1 = 42 :=
  ⟨(claim_C9_context_framing pushNatHandler ⟨[4]⟩ 42).1,
   (claim_C9_context_framing idNatHandler ⟨[4]⟩ 42).2 (fun _ _ => rfl)
     (fun _ _ => rfl) (fun _ _ => rfl) (fun _ _ => rfl) (fun _ _ => rfl)⟩

/-- C6, counterexample to the claim as stated: in the two-state scenario
(`new_initial_state A`, handler for `A` returning `Push B` on its first
`update` and `None` thereafter, handler for `B` returning `Pop` on its
first `update`) the lifecycle-callback trace of seeding followed by three
`update` calls is NOT the claimed
`on_start A, on_pause A, on_start B, on_stop B, on_resume A`:
`new_initial_state` takes no handler and fires no callback, so no
`on_start A` happens at seeding. -/
theorem claim_C6_counterexample :
    cbEvents (scnRun 3).2.2 ≠
      [Event.start ScnState.A, Event.pause ScnState.A, Event.start ScnState.B,
       Event.stop ScnState.B, Event.resume ScnState.A] := by
  decide

/-- C6 (amended): in the two-state scenario, seeding via
`new_initial_state A` fires no callback at all; `update` #1 fires
`on_pause A` then `on_start B`; `update` #2 fires `on_stop B` then
`on_resume A`; `update` #3 returns `None`, firing no lifecycle callback and
leaving the stack unchanged with length 1 and top `A`. -/
theorem claim_C6_scenario_amended :
    (scnRun 0).2.2 = [] ∧
    (scnRun 1).2.2 =
      [Event.updated ScnState.A, Event.pause ScnState.A, Event.start ScnState.B] ∧
    (scnRun 2).2.2 =
      (scnRun 1).2.2 ++
        [Event.updated ScnState.B, Event.stop ScnState.B, Event.resume ScnState.A] ∧
    (scnRun 3).2.2 = (scnRun 2).2.2 ++ [Event.updated ScnState.A] ∧
    cbEvents (scnRun 3).2.2 =
      [Event.pause ScnState.A, Event.start ScnState.B,
       Event.stop ScnState.B, Event.resume ScnState.A] ∧
    (scnRun 3).1 = (scnRun 2).1 ∧
    (scnRun 3).1.state_stack = [ScnState.A] ∧
    (scnRun 3).1.last = some ScnState.A := by
  decide

end Fsm
